import Mathlib

/-!
Verification of the cellular-automata simulation core of the `pixel_art`
repository.  Cell buffers (`Vec<Cell>` in the source) are modelled as total
functions `ℕ → α`; writing `buf[i] = v` is modelled by pointwise update
(`setc`).  Machine integers (`usize`, `u32`) are modelled as `ℕ`, with
saturation made explicit where the source saturates.
-/

namespace PixelArt

/-- Pointwise buffer update: `setc c i v` is the buffer `c` with slot `i`
overwritten by `v`.  Models the Rust statement `buf[i] = v`. -/
def setc {α : Type} (c : ℕ → α) (i : ℕ) (v : α) : ℕ → α :=
  fun j => if j = i then v else c j

/-- Row-major flat index, `x + y * width`, as used throughout the source. -/
def flatIdx (w x y : ℕ) : ℕ := x + y * w

/-- Double-sided toroidal wrap used by `sandpiles.rs::count_tall_neibs`,
`elementary.rs::neibs` and `critters.rs::count_big_cell`: given an axis length
`w` and a coordinate `x`, returns `(xm1, xp1)`, the wrapped predecessor and
successor coordinates, with exactly the source's branching. -/
def wrapBoth (w x : ℕ) : ℕ × ℕ :=
  if x = 0 then (w - 1, x + 1)
  else if x = w - 1 then (x - 1, 0)
  else (x - 1, x + 1)

/-- Bounded fold writing one lattice row: models
`for x in 0..m { buf[x + y*w] = v x y }` (the source always runs it with
`m = w`; keeping the bound separate from the stride makes induction possible). -/
def rowAux {α : Type} (v : ℕ → ℕ → α) (y w : ℕ) (s : ℕ → α) (m : ℕ) : ℕ → α :=
  (List.range m).foldl (fun s x => setc s (x + y * w) (v x y)) s

/-- Full raster scan writing every cell once: models the nested
`for y in 0..h { for x in 0..w { buf[x + y*w] = v x y } }` loops of
`sandpiles.rs::update`. -/
def rasterFill {α : Type} (v : ℕ → ℕ → α) (w h : ℕ) (s : ℕ → α) : ℕ → α :=
  (List.range h).foldl (fun s y => rowAux v y w s w) s

/-! ## Elementary (1D) engine — `src/projects/elementary.rs` -/

namespace Elem

/-- Screen width constant from `elementary.rs` (`const SCREEN_WIDTH: u32 = 360`). -/
def SCREEN_WIDTH : ℕ := 360

/-- Rule-110 transition table, from `Cell::next_state` in `elementary.rs`
(the cell's boolean `alive` payload is modelled directly as `Bool`). -/
def next_state (neibs : Bool × Bool × Bool) : Bool :=
  match neibs with
  | (true, true, true) => false
  | (true, true, false) => true
  | (true, false, true) => true
  | (true, false, false) => false
  | (false, true, true) => true
  | (false, true, false) => true
  | (false, false, true) => true
  | (false, false, false) => false

/-- The `Rule110` struct of `elementary.rs`: double-buffered lattice of boolean
cells plus the `active_line` frontier marker. -/
structure Rule110 where
  cells : ℕ → Bool
  width : ℕ
  height : ℕ
  scratch_cells : ℕ → Bool
  active_line : ℕ

/-- The three cells of the row above `(x, y)` at columns `x-1, x, x+1`, with
the source's toroidal branching on both axes (`Rule110::neibs`). -/
def neibs (g : Rule110) (x y : ℕ) : Bool × Bool × Bool :=
  let xw := wrapBoth g.width x
  let yw := wrapBoth g.height y
  (g.cells (xw.1 + yw.1 * g.width),
   g.cells (x + yw.1 * g.width),
   g.cells (xw.2 + yw.1 * g.width))

/-- The three flat indices read by `Rule110::neibs` for cell `(x, y)`, with
exactly the source's wraparound branching. -/
def neibsIndices (w h x y : ℕ) : List ℕ :=
  let xw := wrapBoth w x
  let yw := wrapBoth h y
  [xw.1 + yw.1 * w, x + yw.1 * w, xw.2 + yw.1 * w]

/-- One step of the elementary engine (`Rule110::update`): no-op when the
active line is 0, otherwise compute the active row into the scratch buffer,
advance (and possibly reset) `active_line`, and swap the buffers. -/
def update (g : Rule110) : Rule110 :=
  let y := g.active_line
  if y = 0 then g
  else
    let scratch' := rowAux (fun x y => next_state (neibs g x y)) y g.width g.scratch_cells g.width
    let a := g.active_line + 1
    { g with
      cells := scratch'
      scratch_cells := g.cells
      active_line := if a ≥ g.height then 0 else a }

/-- The loop body of `Rule110::randomize`: iterates over cell indices starting
at `n` with the given fuel (the enumeration length), breaking as soon as the
index exceeds `SCREEN_WIDTH`; each non-broken iteration draws the next uniform
value and stores `draw > 0.5`.  The PRNG draws are abstracted as the sequence
`draws : ℕ → ℚ` (the k-th call of `f32_half_open_right`). -/
def randLoop (draws : ℕ → ℚ) : (ℕ → Bool) → ℕ → ℕ → (ℕ → Bool)
  | c, _, 0 => c
  | c, n, fuel + 1 =>
    if n > SCREEN_WIDTH then c
    else randLoop draws (setc c n (decide (draws n > 1/2))) (n + 1) fuel

/-- `Rule110::randomize`: runs the break-early loop over the whole cell
buffer (`INITIAL_FILL = 0.5` in `elementary.rs`). -/
def randomize (draws : ℕ → ℚ) (g : Rule110) : Rule110 :=
  { g with cells := randLoop draws g.cells 0 (g.width * g.height) }

end Elem

/-! ## Sandpile engine — `src/projects/sandpiles.rs` -/

namespace Sand

/-- Toppling threshold (`const TOPPLE_HEIGHT: u32 = 4`). -/
def TOPPLE_HEIGHT : ℕ := 4

/-- Largest representable `u32` grain count; `saturating_add` clamps here. -/
def U32_MAX : ℕ := 4294967295

/-- `Pile::next_state`: a pile at or above the threshold keeps
`grains - TOPPLE_HEIGHT`, otherwise it is unchanged.  The `Pile` struct's
single `grains: u32` field is modelled directly as `ℕ`. -/
def next_state (grains : ℕ) : ℕ :=
  if grains ≥ TOPPLE_HEIGHT then grains - TOPPLE_HEIGHT else grains

/-- `Pile::give_grain`: 1 if the pile is tall enough to topple, else 0. -/
def give_grain (grains : ℕ) : ℕ :=
  if grains ≥ TOPPLE_HEIGHT then 1 else 0

/-- `Pile::add_grains`, built on `u32::saturating_add`. -/
def add_grains (grains more : ℕ) : ℕ :=
  min (grains + more) U32_MAX

/-- The `SandPiles` struct: double-buffered lattice of grain counts. -/
structure SandPiles where
  piles : ℕ → ℕ
  width : ℕ
  height : ℕ
  scratch_piles : ℕ → ℕ

/-- The four flat indices read by `SandPiles::count_tall_neibs` for cell
`(x, y)` — row above, column left, column right, row below — with exactly the
source's wraparound branching. -/
def tallNeibIndices (w h x y : ℕ) : List ℕ :=
  let xw := wrapBoth w x
  let yw := wrapBoth h y
  [x + yw.1 * w, xw.1 + y * w, xw.2 + y * w, x + yw.2 * w]

/-- `SandPiles::count_tall_neibs`: each of the four orthogonal neighbors that
is tall enough to topple contributes a single grain. -/
def count_tall_neibs (g : SandPiles) (x y : ℕ) : ℕ :=
  let xw := wrapBoth g.width x
  let yw := wrapBoth g.height y
  give_grain (g.piles (x + yw.1 * g.width))
    + give_grain (g.piles (xw.1 + y * g.width))
    + give_grain (g.piles (xw.2 + y * g.width))
    + give_grain (g.piles (x + yw.2 * g.width))

/-- `SandPiles::update`: one full raster pass writing
`piles[idx].next_state().add_grains(count_tall_neibs(x, y))` into the scratch
buffer, followed by the buffer swap. -/
def update (g : SandPiles) : SandPiles :=
  let scratch' := rasterFill
    (fun x y => add_grains (next_state (g.piles (x + y * g.width))) (count_tall_neibs g x y))
    g.width g.height g.scratch_piles
  { g with piles := scratch', scratch_piles := g.piles }

end Sand

/-! ## Single-rotation Margolus engine — `src/projects/single_rotation.rs` -/

namespace SR

/-- Wrapped successor coordinate as computed inside
`single_rotation.rs::count_big_cell`: `if x == w - 1 { 0 } else { x + 1 }`. -/
def succWrap (w x : ℕ) : ℕ := if x = w - 1 then 0 else x + 1

/-- The `cell_pos` array of `count_big_cell`: the four flat indices of the 2×2
block anchored at `(x, y)`, in clockwise order top-left, top-right,
bottom-right, bottom-left. -/
def blockPos (w h x y : ℕ) : ℕ × ℕ × ℕ × ℕ :=
  (x + y * w, succWrap w x + y * w,
   succWrap w x + succWrap h y * w, x + succWrap h y * w)

/-- The four indices of a block position tuple as a list. -/
def idxList (p : ℕ × ℕ × ℕ × ℕ) : List ℕ :=
  [p.1, p.2.1, p.2.2.1, p.2.2.2]

/-- The live count of a block: the source's
`cells[TL] + cells[TR] + cells[BL] + cells[BR]` sum (reading the same four
indices as `cell_pos`, in the source's order). -/
def blockCount (c : ℕ → Bool) (p : ℕ × ℕ × ℕ × ℕ) : ℕ :=
  (c p.1).toNat + (c p.2.1).toNat + (c p.2.2.2).toNat + (c p.2.2.1).toNat

/-- `count_big_cell` of `single_rotation.rs`, with the cell buffer passed
explicitly because the grid passes mutate it in place. -/
def count_big_cell (c : ℕ → Bool) (w h x y : ℕ) : ℕ × (ℕ × ℕ × ℕ × ℕ) :=
  (blockCount c (blockPos w h x y), blockPos w h x y)

/-- `update_big_cell`: when exactly one member is alive, each slot of the
clockwise-ordered block takes the value of the next slot
(`cells[0]=t1; cells[1]=t2; cells[2]=t3; cells[3]=t0`). -/
def update_big_cell (c : ℕ → Bool) (n : ℕ) (p : ℕ × ℕ × ℕ × ℕ) : ℕ → Bool :=
  if n = 1 then
    let t0 := c p.1
    let t1 := c p.2.1
    let t2 := c p.2.2.1
    let t3 := c p.2.2.2
    setc (setc (setc (setc c p.1 t1) p.2.1 t2) p.2.2.1 t3) p.2.2.2 t0
  else c

/-- `update_big_cell_reverse`: the opposite rotation
(`cells[0]=t3; cells[1]=t0; cells[2]=t1; cells[3]=t2`). -/
def update_big_cell_reverse (c : ℕ → Bool) (n : ℕ) (p : ℕ × ℕ × ℕ × ℕ) : ℕ → Bool :=
  if n = 1 then
    let t0 := c p.1
    let t1 := c p.2.1
    let t2 := c p.2.2.1
    let t3 := c p.2.2.2
    setc (setc (setc (setc c p.1 t3) p.2.1 t0) p.2.2.1 t1) p.2.2.2 t2
  else c

/-- One block update as performed inside the grid passes: count the block at
`(x, y)` and apply `update_big_cell` or `update_big_cell_reverse` according to
the `reverse` flag. -/
def blockStep (rev : Bool) (w h : ℕ) (c : ℕ → Bool) (x y : ℕ) : ℕ → Bool :=
  let cp := count_big_cell c w h x y
  match rev with
  | true => update_big_cell_reverse c cp.1 cp.2
  | false => update_big_cell c cp.1 cp.2

/-- The `MarGrid` struct of `single_rotation.rs`. -/
@[ext]
structure MarGrid where
  cells : ℕ → Bool
  width : ℕ
  height : ℕ
  reverse : Bool
  phase : Bool

/-- `idx_grid`: flat index back to `(x, y)` coordinates. -/
def idx_grid (w n : ℕ) : ℕ × ℕ := (n % w, n / w)

/-- `update_grid_1`: visit the even-anchored 2×2 blocks
(`idx = xt*2 + yt*width*2`) in loop order, updating each in place. -/
def update_grid_1 (g : MarGrid) : MarGrid :=
  { g with cells := (List.range (g.height / 2)).foldl (fun c yt =>
      (List.range (g.width / 2)).foldl (fun c xt =>
        let idx := xt * 2 + yt * g.width * 2
        let xy := idx_grid g.width idx
        blockStep g.reverse g.width g.height c xy.1 xy.2) c) g.cells }

/-- `update_grid_2`: same traversal but blocks anchored at `(x+1, y+1)`. -/
def update_grid_2 (g : MarGrid) : MarGrid :=
  { g with cells := (List.range (g.height / 2)).foldl (fun c yt =>
      (List.range (g.width / 2)).foldl (fun c xt =>
        let idx := xt * 2 + yt * g.width * 2
        let xy := idx_grid g.width idx
        blockStep g.reverse g.width g.height c (xy.1 + 1) (xy.2 + 1)) c) g.cells }

/-- `MarGrid::update`: toggle the phase, then run pass 1 (new phase `true`)
or pass 2 (new phase `false`). -/
def update (g : MarGrid) : MarGrid :=
  let g' := { g with phase := !g.phase }
  match g'.phase with
  | true => update_grid_1 g'
  | false => update_grid_2 g'

/-- `MarGrid::reverse`: toggle both the phase and the reverse flag. -/
def reverse' (g : MarGrid) : MarGrid :=
  { g with phase := !g.phase, reverse := !g.reverse }

/-- Pairwise distinctness of the four members of a block position tuple. -/
def Distinct4 (p : ℕ × ℕ × ℕ × ℕ) : Prop :=
  p.1 ≠ p.2.1 ∧ p.1 ≠ p.2.2.1 ∧ p.1 ≠ p.2.2.2 ∧
  p.2.1 ≠ p.2.2.1 ∧ p.2.1 ≠ p.2.2.2 ∧ p.2.2.1 ≠ p.2.2.2

instance (p : ℕ × ℕ × ℕ × ℕ) : Decidable (Distinct4 p) := by
  unfold Distinct4
  exact inferInstance

/-- Disjointness of the index sets of two block position tuples. -/
def PosDisj (p q : ℕ × ℕ × ℕ × ℕ) : Prop :=
  ∀ i ∈ idxList p, i ∉ idxList q

/-- One block update expressed over a precomputed position tuple (the grid
passes recompute `count_big_cell` at an anchor; this is the same update once
the anchor's positions are known). -/
def stepAt (rev : Bool) (c : ℕ → Bool) (p : ℕ × ℕ × ℕ × ℕ) : ℕ → Bool :=
  match rev with
  | true => update_big_cell_reverse c (blockCount c p) p
  | false => update_big_cell c (blockCount c p) p

/-- Sequential in-place application of block updates at a list of block
positions (the flattened form of a grid pass). -/
def applyBlocks (rev : Bool) (c : ℕ → Bool) (P : List (ℕ × ℕ × ℕ × ℕ)) : ℕ → Bool :=
  P.foldl (fun c p => stepAt rev c p) c

/-- The block positions visited by a grid pass, in loop order: `off = 0` for
`update_grid_1` (even anchors), `off = 1` for `update_grid_2` (odd anchors). -/
def posList (w h off : ℕ) : List (ℕ × ℕ × ℕ × ℕ) :=
  (List.range (h / 2)).flatMap (fun yt => (List.range (w / 2)).map (fun xt =>
    let idx := xt * 2 + yt * w * 2
    blockPos w h ((idx_grid w idx).1 + off) ((idx_grid w idx).2 + off)))

/-- Clockwise 90-degree block rotation as the spec words it ("rotate the block
90° clockwise relative to the clockwise member order top-left, top-right,
bottom-right, bottom-left"): each member's content moves to its clockwise
successor, so each slot takes the value of its clockwise predecessor.
Written from the spec's words, for comparison against `update_big_cell`. -/
def rotCW (c : ℕ → Bool) (p : ℕ × ℕ × ℕ × ℕ) : ℕ → Bool :=
  fun j =>
    if j = p.1 then c p.2.2.2
    else if j = p.2.1 then c p.1
    else if j = p.2.2.1 then c p.2.1
    else if j = p.2.2.2 then c p.2.2.1
    else c j

/-- Counter-clockwise 90-degree block rotation, the inverse convention of
`rotCW`: each slot takes the value of its clockwise successor. -/
def rotCCW (c : ℕ → Bool) (p : ℕ × ℕ × ℕ × ℕ) : ℕ → Bool :=
  fun j =>
    if j = p.1 then c p.2.1
    else if j = p.2.1 then c p.2.2.1
    else if j = p.2.2.1 then c p.2.2.2
    else if j = p.2.2.2 then c p.1
    else c j

end SR

/-! ## Critters Margolus engine — `src/projects/critters.rs` and
`src/projects/multicolor.rs` (the complete implementation of the rule) -/

namespace Crit

/-- Toggle one boolean cell in place (`Cell::toggle`). -/
def toggleAt (c : ℕ → Bool) (i : ℕ) : ℕ → Bool :=
  setc c i (!(c i))

/-- Sequential `for p in cells { self.cells[p].toggle() }` over the four
members of a block. -/
def toggle4 (c : ℕ → Bool) (p : ℕ × ℕ × ℕ × ℕ) : ℕ → Bool :=
  toggleAt (toggleAt (toggleAt (toggleAt c p.1) p.2.1) p.2.2.1) p.2.2.2

/-- The Critters block update as implemented in `multicolor.rs::update_big_cell`
(lines 231–254): count 2 → no change; count 0, 1 or 4 → invert the whole
block; otherwise rotate 180° (`cells[0]=t2; cells[1]=t3; cells[2]=t0;
cells[3]=t1`) and then invert the whole block. -/
def update_big_cell (c : ℕ → Bool) (n : ℕ) (p : ℕ × ℕ × ℕ × ℕ) : ℕ → Bool :=
  if n = 2 then c
  else if n = 0 ∨ n = 1 ∨ n = 4 then toggle4 c p
  else
    let t0 := c p.1
    let t1 := c p.2.1
    let t2 := c p.2.2.1
    let t3 := c p.2.2.2
    toggle4 (setc (setc (setc (setc c p.1 t2) p.2.1 t3) p.2.2.1 t0) p.2.2.2 t1) p

/-- The block update as it stands in `critters.rs::update_big_cell`
(lines 297–301): only the `n == 2` early return is written, so the cells are
left unchanged for every count. -/
def update_big_cell_stub (c : ℕ → Bool) (n : ℕ) (_p : ℕ × ℕ × ℕ × ℕ) : ℕ → Bool :=
  if n = 2 then c else c

end Crit

/-! ## Rasterizer — `set_line` (identical in `critters.rs`,
`single_rotation.rs`, `elementary.rs`; sandpile variant writes a grain count) -/

/-- `grid_idx` for signed coordinates: `try_into::<usize>` succeeds exactly on
non-negative values, then the coordinates are bounds-checked. -/
def grid_idx (w h : ℕ) (x y : ℤ) : Option ℕ :=
  if 0 ≤ x ∧ 0 ≤ y ∧ x.toNat < w ∧ y.toNat < h then some (x.toNat + y.toNat * w)
  else none

/-- Modelled from the spec: the `line_drawing::Bresenham` iterator is an
external crate, not part of `src/`; the spec (§4.3) specifies integer
Bresenham stepping from the start point to the end point with no anti-aliasing.
This is the textbook all-octant integer Bresenham walk; `fuel` bounds the walk
length. -/
def bresAux (x1 y1 sx sy dx dy : ℤ) : ℤ → ℤ → ℤ → ℕ → List (ℤ × ℤ)
  | _, _, _, 0 => []
  | x, y, err, fuel + 1 =>
    (x, y) ::
      (if x = x1 ∧ y = y1 then []
       else
         let e2 := 2 * err
         let stepx : Bool := e2 ≥ dy
         let stepy : Bool := e2 ≤ dx
         bresAux x1 y1 sx sy dx dy
           (if stepx then x + sx else x)
           (if stepy then y + sy else y)
           (err + (if stepx then dy else 0) + (if stepy then dx else 0))
           fuel)

/-- Modelled from the spec: the full Bresenham point sequence from `(x0, y0)`
to `(x1, y1)`, both endpoints included. -/
def bresenham (x0 y0 x1 y1 : ℤ) : List (ℤ × ℤ) :=
  let dx := |x1 - x0|
  let sx : ℤ := if x0 < x1 then 1 else -1
  let dy := -|y1 - y0|
  let sy : ℤ := if y0 < y1 then 1 else -1
  bresAux x1 y1 sx sy dx dy x0 y0 (dx + dy) ((dx - dy).toNat + 1)

/-- The consuming loop of `set_line`: apply the edit (write `v`) at each
generated coordinate that is in bounds, and stop at the first generated
coordinate that is out of bounds (`else { break }` in the source). -/
def setLineLoop {α : Type} (w h : ℕ) (v : α) : (ℕ → α) → List (ℤ × ℤ) → (ℕ → α)
  | c, [] => c
  | c, q :: qs =>
    match grid_idx w h q.1 q.2 with
    | some i => setLineLoop w h v (setc c i v) qs
    | none => c

/-- `MarGrid::set_line` of `critters.rs` / `single_rotation.rs`: clamp the
start point with `x0.max(0).min(width)` (and likewise `y0`), then walk the
Bresenham line, setting each in-bounds cell to `alive` and breaking at the
first out-of-bounds coordinate. -/
def SR.set_line (g : SR.MarGrid) (x0 y0 x1 y1 : ℤ) (alive : Bool) : SR.MarGrid :=
  let cx := min (max x0 0) (g.width : ℤ)
  let cy := min (max y0 0) (g.height : ℤ)
  { g with cells := setLineLoop g.width g.height alive g.cells (bresenham cx cy x1 y1) }

/-- `CLICK_HEIGHT` from `sandpiles.rs`: grain count written by an edit. -/
def Sand.CLICK_HEIGHT : ℕ := 256

/-- `SandPiles::set_line`: same clamp-and-walk, writing `CLICK_HEIGHT` grains
into each in-bounds cell of the line. -/
def Sand.set_line (g : Sand.SandPiles) (x0 y0 x1 y1 : ℤ) : Sand.SandPiles :=
  let cx := min (max x0 0) (g.width : ℤ)
  let cy := min (max y0 0) (g.height : ℤ)
  { g with piles := setLineLoop g.width g.height Sand.CLICK_HEIGHT g.piles (bresenham cx cy x1 y1) }

/-! ## Shared lemmas about buffers and flat indices -/

lemma setc_self {α : Type} (c : ℕ → α) (i : ℕ) (v : α) : setc c i v i = v := by
  simp [setc]

lemma setc_ne {α : Type} (c : ℕ → α) {i j : ℕ} (v : α) (h : j ≠ i) : setc c i v j = c j := by
  simp [setc, h]

lemma index_inj {w a b r s : ℕ} (ha : a < w) (hb : b < w)
    (h : a + r * w = b + s * w) : a = b ∧ r = s := by
  have h1 : (a + r * w) % w = a := by
    rw [Nat.add_mul_mod_self_right, Nat.mod_eq_of_lt ha]
  have h2 : (b + s * w) % w = b := by
    rw [Nat.add_mul_mod_self_right, Nat.mod_eq_of_lt hb]
  have hab : a = b := by rw [← h1, h, h2]
  refine ⟨hab, ?_⟩
  have hw : 0 < w := Nat.pos_of_ne_zero (by omega)
  have hrs : r * w = s * w := by omega
  exact Nat.eq_of_mul_eq_mul_right hw hrs

lemma index_lt {w h a r : ℕ} (ha : a < w) (hr : r < h) : a + r * w < w * h := by
  calc a + r * w < w + r * w := by omega
    _ = (r + 1) * w := by ring
    _ ≤ h * w := Nat.mul_le_mul_right w hr
    _ = w * h := Nat.mul_comm h w

lemma rowAux_succ {α : Type} (v : ℕ → ℕ → α) (y w : ℕ) (s : ℕ → α) (m : ℕ) :
    rowAux v y w s (m + 1) = setc (rowAux v y w s m) (m + y * w) (v m y) := by
  unfold rowAux
  rw [List.range_succ, List.foldl_append]
  rfl

lemma rowAux_ne {α : Type} (v : ℕ → ℕ → α) (y w : ℕ) (s : ℕ → α) (m i : ℕ)
    (h : ∀ x, x < m → i ≠ x + y * w) : rowAux v y w s m i = s i := by
  induction m with
  | zero => rfl
  | succ m ih =>
    rw [rowAux_succ, setc_ne _ _ (h m (by omega))]
    exact ih (fun x hx => h x (by omega))

lemma rowAux_at {α : Type} (v : ℕ → ℕ → α) (y w : ℕ) (s : ℕ → α) (m x : ℕ)
    (hx : x < m) : rowAux v y w s m (x + y * w) = v x y := by
  induction m with
  | zero => omega
  | succ m ih =>
    rw [rowAux_succ]
    rcases Nat.lt_or_ge x m with hlt | hge
    · rw [setc_ne _ _ (by omega)]
      exact ih hlt
    · have hxm : x = m := by omega
      subst hxm
      exact setc_self _ _ _

lemma rasterFill_succ {α : Type} (v : ℕ → ℕ → α) (w h : ℕ) (s : ℕ → α) :
    rasterFill v w (h + 1) s = rowAux v h w (rasterFill v w h s) w := by
  unfold rasterFill
  rw [List.range_succ, List.foldl_append]
  rfl

lemma rasterFill_ne {α : Type} (v : ℕ → ℕ → α) (w h : ℕ) (s : ℕ → α) (i : ℕ)
    (hi : ∀ x y, x < w → y < h → i ≠ x + y * w) : rasterFill v w h s i = s i := by
  induction h with
  | zero => rfl
  | succ h ih =>
    rw [rasterFill_succ, rowAux_ne _ _ _ _ _ _ (fun x hx => hi x h hx (by omega))]
    exact ih (fun x y hx hy => hi x y hx (by omega))

lemma rasterFill_at {α : Type} (v : ℕ → ℕ → α) (w h : ℕ) (s : ℕ → α) (x y : ℕ)
    (hx : x < w) (hy : y < h) : rasterFill v w h s (x + y * w) = v x y := by
  induction h with
  | zero => omega
  | succ h ih =>
    rw [rasterFill_succ]
    rcases Nat.lt_or_ge y h with hlt | hge
    · rw [rowAux_ne]
      · exact ih hlt
      · intro x' hx' heq
        exact absurd (index_inj hx hx' heq).2 (by omega)
    · have hyh : y = h := by omega
      subst hyh
      exact rowAux_at _ _ _ _ _ _ hx

/-! ## Wraparound arithmetic lemmas -/

lemma wrapBoth_fst_of_pos {h y : ℕ} (hy : 1 ≤ y) : (wrapBoth h y).1 = y - 1 := by
  unfold wrapBoth
  split_ifs <;> omega

lemma wrapBoth_fst_mod {w x : ℕ} (hw : 2 ≤ w) (hx : x < w) :
    (wrapBoth w x).1 = (x + w - 1) % w := by
  unfold wrapBoth
  split_ifs with h1 h2
  · show w - 1 = (x + w - 1) % w
    rw [Nat.mod_eq_of_lt (by omega)]
    omega
  · show x - 1 = (x + w - 1) % w
    have hs : x + w - 1 = (x - 1) + w := by omega
    rw [hs, Nat.add_mod_right, Nat.mod_eq_of_lt (by omega)]
  · show x - 1 = (x + w - 1) % w
    have hs : x + w - 1 = (x - 1) + w := by omega
    rw [hs, Nat.add_mod_right, Nat.mod_eq_of_lt (by omega)]

lemma wrapBoth_snd_mod {w x : ℕ} (hw : 2 ≤ w) (hx : x < w) :
    (wrapBoth w x).2 = (x + 1) % w := by
  unfold wrapBoth
  split_ifs with h1 h2
  · show x + 1 = (x + 1) % w
    rw [Nat.mod_eq_of_lt (by omega)]
  · show 0 = (x + 1) % w
    have hs : x + 1 = w := by omega
    rw [hs, Nat.mod_self]
  · show x + 1 = (x + 1) % w
    rw [Nat.mod_eq_of_lt (by omega)]

/-! ## Elementary engine: theorems -/

/-- C4: the elementary engine's per-cell transition function maps each ordered
boolean triple of the row above exactly according to the Rule-110 table. -/
theorem elementary_rule110_table :
    Elem.next_state (true, true, true) = false ∧
    Elem.next_state (true, true, false) = true ∧
    Elem.next_state (true, false, true) = true ∧
    Elem.next_state (true, false, false) = false ∧
    Elem.next_state (false, true, true) = true ∧
    Elem.next_state (false, true, false) = true ∧
    Elem.next_state (false, false, true) = true ∧
    Elem.next_state (false, false, false) = false := by
  decide

lemma elem_neibs_eq (g : Elem.Rule110) (x y : ℕ) (hw : 2 ≤ g.width)
    (hx : x < g.width) (hy : 1 ≤ y) :
    Elem.neibs g x y =
      (g.cells ((x + g.width - 1) % g.width + (y - 1) * g.width),
       g.cells (x + (y - 1) * g.width),
       g.cells ((x + 1) % g.width + (y - 1) * g.width)) := by
  simp only [Elem.neibs]
  rw [wrapBoth_fst_of_pos hy, wrapBoth_fst_mod hw hx, wrapBoth_snd_mod hw hx]

/-- C8: if `active_row == 0` an elementary-engine step is a no-op; otherwise it
computes the active row from the three cells of the row above at columns
`(x-1, x, x+1)` with horizontal wraparound, then increments `active_row`,
resetting it to 0 exactly when the incremented value reaches `height`. -/
theorem elementary_step_semantics (g : Elem.Rule110) :
    (g.active_line = 0 → Elem.update g = g) ∧
    (1 ≤ g.active_line → 2 ≤ g.width →
      ∀ x, x < g.width →
        (Elem.update g).cells (x + g.active_line * g.width) =
          Elem.next_state
            (g.cells ((x + g.width - 1) % g.width + (g.active_line - 1) * g.width),
             g.cells (x + (g.active_line - 1) * g.width),
             g.cells ((x + 1) % g.width + (g.active_line - 1) * g.width))) ∧
    (1 ≤ g.active_line →
      (Elem.update g).active_line =
        if g.active_line + 1 ≥ g.height then 0 else g.active_line + 1) := by
  refine ⟨fun h0 => ?_, fun h1 hw x hx => ?_, fun h1 => ?_⟩
  · simp [Elem.update, h0]
  · have hne : ¬ g.active_line = 0 := by omega
    simp only [Elem.update, hne, if_false]
    rw [rowAux_at _ _ _ _ _ _ hx, elem_neibs_eq g x g.active_line hw hx h1]
  · have hne : ¬ g.active_line = 0 := by omega
    simp [Elem.update, hne, ge_iff_le]

/-- Witness for C8 at a concrete 2×3 lattice with `active_line = 1`. -/
theorem elementary_step_semantics_witness :
    ((⟨fun i => decide (i = 1), 2, 3, fun _ => false, 1⟩ : Elem.Rule110).active_line = 0 →
      Elem.update ⟨fun i => decide (i = 1), 2, 3, fun _ => false, 1⟩ =
        ⟨fun i => decide (i = 1), 2, 3, fun _ => false, 1⟩) ∧
    (Elem.update (⟨fun i => decide (i = 1), 2, 3, fun _ => false, 1⟩ : Elem.Rule110)).cells
        (0 + 1 * 2) =
      Elem.next_state
        ((fun i => decide (i = 1)) ((0 + 2 - 1) % 2 + 0 * 2),
         (fun i => decide (i = 1)) (0 + 0 * 2),
         (fun i => decide (i = 1)) ((0 + 1) % 2 + 0 * 2)) ∧
    (Elem.update (⟨fun i => decide (i = 1), 2, 3, fun _ => false, 1⟩ : Elem.Rule110)).active_line =
      if 1 + 1 ≥ 3 then 0 else 1 + 1 := by
  obtain ⟨h0, h1, h2⟩ :=
    elementary_step_semantics (⟨fun i => decide (i = 1), 2, 3, fun _ => false, 1⟩ : Elem.Rule110)
  exact ⟨h0, h1 (by decide) (by decide) 0 (by decide), h2 (by decide)⟩

/-- C6 counterexample: a step with `active_row = 1` changes row 0 of the
exposed buffer (the swap exposes the stale scratch buffer in every row other
than the active one). -/
theorem elementary_frame_counterexample :
    ¬ (∀ (g : Elem.Rule110), 1 ≤ g.active_line →
        ∀ x y, x < g.width → y < g.height → y ≠ g.active_line →
          (Elem.update g).cells (x + y * g.width) = g.cells (x + y * g.width)) := by
  intro hcl
  have h := hcl (⟨fun i => decide (i = 0), 2, 2, fun _ => false, 1⟩ : Elem.Rule110)
    (by decide) 0 0 (by decide) (by decide) (by decide)
  revert h
  decide

/-- C6 amended: an elementary-engine step with `active_row = r ≥ 1` writes only
row `r`; every other row of the newly exposed buffer equals that row of the
pre-step *scratch* buffer (not of the pre-step current buffer), and the
pre-step current buffer becomes the scratch buffer. -/
theorem elementary_frame_amended (g : Elem.Rule110) (x y : ℕ)
    (h1 : 1 ≤ g.active_line) (hx : x < g.width) (hy : y ≠ g.active_line) :
    (Elem.update g).cells (x + y * g.width) = g.scratch_cells (x + y * g.width) ∧
    ∀ j, (Elem.update g).scratch_cells j = g.cells j := by
  have hne : ¬ g.active_line = 0 := by omega
  constructor
  · simp only [Elem.update, hne, if_false]
    refine rowAux_ne _ _ _ _ _ _ (fun x' hx' heq => ?_)
    exact absurd (index_inj hx hx' heq).2 hy
  · intro j
    simp [Elem.update, hne]

/-- Witness for the amended C6 at a concrete 2×2 lattice. -/
theorem elementary_frame_amended_witness :
    (Elem.update (⟨fun i => decide (i = 0), 2, 2, fun _ => false, 1⟩ : Elem.Rule110)).cells
        (0 + 0 * 2) =
      (fun _ => false) (0 + 0 * 2) ∧
    ∀ j, (Elem.update (⟨fun i => decide (i = 0), 2, 2, fun _ => false, 1⟩ :
        Elem.Rule110)).scratch_cells j = (fun i => decide (i = 0)) j :=
  elementary_frame_amended (⟨fun i => decide (i = 0), 2, 2, fun _ => false, 1⟩ : Elem.Rule110)
    0 0 (by decide) (by decide) (by decide)

lemma randLoop_char (draws : ℕ → ℚ) :
    ∀ (fuel : ℕ) (c : ℕ → Bool) (n i : ℕ),
      Elem.randLoop draws c n fuel i =
        if n ≤ i ∧ i < n + fuel ∧ i ≤ Elem.SCREEN_WIDTH
        then decide (draws i > 1/2) else c i := by
  intro fuel
  induction fuel with
  | zero =>
    intro c n i
    simp only [Elem.randLoop]
    split_ifs with h
    · omega
    · rfl
  | succ fuel ih =>
    intro c n i
    simp only [Elem.randLoop]
    split_ifs with hbreak hcond hcond
    · omega
    · rfl
    · rw [ih]
      rcases eq_or_ne i n with hin | hin
      · subst hin
        rw [if_neg (by omega), setc_self]
      · rw [if_pos (by omega)]
    · rw [ih, if_neg (by omega)]
      have hin : i ≠ n := by omega
      rw [setc_ne _ _ hin]

/-- C10: on the engine's 360×240 lattice, `randomize` writes fresh random
cells at flat indices 0 through `SCREEN_WIDTH` inclusive (361 cells: the whole
first row and the first cell of the second row), alive iff the draw exceeds
0.5, and leaves every higher index unchanged. -/
theorem elementary_randomize_range (draws : ℕ → ℚ) (g : Elem.Rule110)
    (hw : g.width = 360) (hh : g.height = 240) :
    ∀ i, (Elem.randomize draws g).cells i =
      if i ≤ Elem.SCREEN_WIDTH then decide (draws i > 1/2) else g.cells i := by
  intro i
  show Elem.randLoop draws g.cells 0 (g.width * g.height) i = _
  rw [randLoop_char, hw, hh]
  have h360 : Elem.SCREEN_WIDTH = 360 := rfl
  split_ifs with h1 h2 h2
  · rfl
  · omega
  · omega
  · rfl

/-- Witness for C10 at the engine's dimensions with constant draws. -/
theorem elementary_randomize_range_witness :
    (Elem.randomize (fun _ => 1)
        (⟨fun _ => false, 360, 240, fun _ => false, 1⟩ : Elem.Rule110)).cells 360 =
      if 360 ≤ Elem.SCREEN_WIDTH then decide ((fun _ => (1 : ℚ)) 360 > 1/2)
      else (fun _ => false) 360 :=
  elementary_randomize_range (fun _ => 1)
    (⟨fun _ => false, 360, 240, fun _ => false, 1⟩ : Elem.Rule110) rfl rfl 360

/-! ## Sandpile engine: theorems -/

lemma wrapBoth_lt {w x : ℕ} (hw : 2 ≤ w) (hx : x < w) :
    (wrapBoth w x).1 < w ∧ (wrapBoth w x).2 < w := by
  unfold wrapBoth
  split_ifs <;> exact ⟨by omega, by omega⟩

lemma wrapBoth_last {w : ℕ} (hw : 2 ≤ w) : wrapBoth w (w - 1) = (w - 2, 0) := by
  unfold wrapBoth
  split_ifs <;> simp_all <;> omega

lemma count_tall_neibs_eq (g : Sand.SandPiles) (x y : ℕ) (hw : 2 ≤ g.width)
    (hh : 2 ≤ g.height) (hx : x < g.width) (hy : y < g.height) :
    Sand.count_tall_neibs g x y =
      Sand.give_grain (g.piles (x + ((y + g.height - 1) % g.height) * g.width)) +
      Sand.give_grain (g.piles ((x + g.width - 1) % g.width + y * g.width)) +
      Sand.give_grain (g.piles ((x + 1) % g.width + y * g.width)) +
      Sand.give_grain (g.piles (x + ((y + 1) % g.height) * g.width)) := by
  simp only [Sand.count_tall_neibs]
  rw [wrapBoth_fst_mod hw hx, wrapBoth_snd_mod hw hx,
    wrapBoth_fst_mod hh hy, wrapBoth_snd_mod hh hy]

/-- C5: one sandpile step maps every cell to
`(grains - 4 if grains ≥ 4 else grains) saturating-plus (number of orthogonal
neighbors with ≥ 4 grains)` with toroidal wraparound; the result is written
through the scratch buffer which afterwards holds the old lattice (swap), the
value never exceeds `u32::MAX`, and a toppling cell at `(0, y)` contributes to
the count of the cell at `(width-1, y)`. -/
theorem sandpile_step_semantics (g : Sand.SandPiles) (x y : ℕ)
    (hw : 2 ≤ g.width) (hh : 2 ≤ g.height) (hx : x < g.width) (hy : y < g.height) :
    ((Sand.update g).piles (x + y * g.width) =
      min ((if g.piles (x + y * g.width) ≥ Sand.TOPPLE_HEIGHT
            then g.piles (x + y * g.width) - Sand.TOPPLE_HEIGHT
            else g.piles (x + y * g.width)) +
        (Sand.give_grain (g.piles (x + ((y + g.height - 1) % g.height) * g.width)) +
         Sand.give_grain (g.piles ((x + g.width - 1) % g.width + y * g.width)) +
         Sand.give_grain (g.piles ((x + 1) % g.width + y * g.width)) +
         Sand.give_grain (g.piles (x + ((y + 1) % g.height) * g.width))))
        Sand.U32_MAX) ∧
    (Sand.update g).piles (x + y * g.width) ≤ Sand.U32_MAX ∧
    (∀ j, (Sand.update g).scratch_piles j = g.piles j) ∧
    (Sand.TOPPLE_HEIGHT ≤ g.piles (0 + y * g.width) →
      1 ≤ Sand.count_tall_neibs g (g.width - 1) y) := by
  have hmain : (Sand.update g).piles (x + y * g.width) =
      min ((if g.piles (x + y * g.width) ≥ Sand.TOPPLE_HEIGHT
            then g.piles (x + y * g.width) - Sand.TOPPLE_HEIGHT
            else g.piles (x + y * g.width)) +
        (Sand.give_grain (g.piles (x + ((y + g.height - 1) % g.height) * g.width)) +
         Sand.give_grain (g.piles ((x + g.width - 1) % g.width + y * g.width)) +
         Sand.give_grain (g.piles ((x + 1) % g.width + y * g.width)) +
         Sand.give_grain (g.piles (x + ((y + 1) % g.height) * g.width))))
        Sand.U32_MAX := by
    show rasterFill _ g.width g.height g.scratch_piles (x + y * g.width) = _
    rw [rasterFill_at _ _ _ _ _ _ hx hy, ← count_tall_neibs_eq g x y hw hh hx hy]
    rfl
  refine ⟨hmain, ?_, fun j => rfl, fun h4 => ?_⟩
  · rw [hmain]
    exact min_le_right _ _
  · have hwl : g.width - 1 < g.width := by omega
    simp only [Sand.count_tall_neibs, wrapBoth_last hw]
    have h4' : Sand.TOPPLE_HEIGHT ≤ g.piles (y * g.width) := by simpa using h4
    have h4n : 4 ≤ g.piles (y * g.width) := h4'
    have h1 : Sand.give_grain (g.piles (0 + y * g.width)) = 1 := by
      simp [Sand.give_grain, Sand.TOPPLE_HEIGHT, h4n]
    omega

/-- Witness for C5 on a concrete 2×2 lattice with one supercritical pile. -/
theorem sandpile_step_semantics_witness :
    ((Sand.update (⟨fun i => if i = 0 then 5 else 1, 2, 2, fun _ => 0⟩ :
        Sand.SandPiles)).piles (1 + 0 * 2) =
      min ((if (fun i => if i = 0 then (5 : ℕ) else 1) (1 + 0 * 2) ≥ Sand.TOPPLE_HEIGHT
            then (fun i => if i = 0 then (5 : ℕ) else 1) (1 + 0 * 2) - Sand.TOPPLE_HEIGHT
            else (fun i => if i = 0 then (5 : ℕ) else 1) (1 + 0 * 2)) +
        (Sand.give_grain ((fun i => if i = 0 then (5 : ℕ) else 1) (1 + ((0 + 2 - 1) % 2) * 2)) +
         Sand.give_grain ((fun i => if i = 0 then (5 : ℕ) else 1) ((1 + 2 - 1) % 2 + 0 * 2)) +
         Sand.give_grain ((fun i => if i = 0 then (5 : ℕ) else 1) ((1 + 1) % 2 + 0 * 2)) +
         Sand.give_grain ((fun i => if i = 0 then (5 : ℕ) else 1) (1 + ((0 + 1) % 2) * 2))))
        Sand.U32_MAX) ∧
    (Sand.update (⟨fun i => if i = 0 then 5 else 1, 2, 2, fun _ => 0⟩ :
        Sand.SandPiles)).piles (1 + 0 * 2) ≤ Sand.U32_MAX ∧
    (∀ j, (Sand.update (⟨fun i => if i = 0 then 5 else 1, 2, 2, fun _ => 0⟩ :
        Sand.SandPiles)).scratch_piles j = (fun i => if i = 0 then (5 : ℕ) else 1) j) ∧
    (Sand.TOPPLE_HEIGHT ≤ (fun i => if i = 0 then (5 : ℕ) else 1) (0 + 0 * 2) →
      1 ≤ Sand.count_tall_neibs
        (⟨fun i => if i = 0 then 5 else 1, 2, 2, fun _ => 0⟩ : Sand.SandPiles) (2 - 1) 0) :=
  sandpile_step_semantics (⟨fun i => if i = 0 then 5 else 1, 2, 2, fun _ => 0⟩ : Sand.SandPiles)
    1 0 (by decide) (by decide) (by decide) (by decide)

/-! ## Neighbor-index safety (spec §8 toroidal closure) -/

/-- C2 counterexample: on a 1×1 lattice the sandpile and elementary neighbor
computations produce the flat index 1, which is not below `width * height`;
the claim fails for degenerate lattices of width 1 or height 1. -/
theorem neighbor_index_bound_counterexample :
    ¬ (∀ w h x y : ℕ, 0 < w → 0 < h → x < w → y < h →
        ((∀ i ∈ Sand.tallNeibIndices w h x y, i < w * h) ∧
         (∀ i ∈ Elem.neibsIndices w h x y, i < w * h) ∧
         (∀ i ∈ SR.idxList (SR.blockPos w h x y), i < w * h))) := by
  intro hcl
  have h := (hcl 1 1 0 0 (by decide) (by decide) (by decide) (by decide)).1 1 (by decide)
  exact absurd h (by decide)

/-- C2 amended: the wraparound neighbor computations stay below
`width * height` for every in-bounds cell whenever width ≥ 2 and height ≥ 2
(`count_tall_neibs` and `neibs`), and for all positive dimensions — including
width or height 1 — for the single-rotation `count_big_cell`. -/
theorem neighbor_index_bound_amended :
    (∀ w h x y : ℕ, 2 ≤ w → 2 ≤ h → x < w → y < h →
      (∀ i ∈ Sand.tallNeibIndices w h x y, i < w * h) ∧
      (∀ i ∈ Elem.neibsIndices w h x y, i < w * h)) ∧
    (∀ w h x y : ℕ, 0 < w → 0 < h → x < w → y < h →
      ∀ i ∈ SR.idxList (SR.blockPos w h x y), i < w * h) := by
  constructor
  · intro w h x y hw hh hx hy
    obtain ⟨hx1, hx2⟩ := wrapBoth_lt hw hx
    obtain ⟨hy1, hy2⟩ := wrapBoth_lt hh hy
    constructor
    · intro i hi
      simp only [Sand.tallNeibIndices, List.mem_cons, List.not_mem_nil, or_false] at hi
      rcases hi with rfl | rfl | rfl | rfl
      · exact index_lt hx hy1
      · exact index_lt hx1 hy
      · exact index_lt hx2 hy
      · exact index_lt hx hy2
    · intro i hi
      simp only [Elem.neibsIndices, List.mem_cons, List.not_mem_nil, or_false] at hi
      rcases hi with rfl | rfl | rfl
      · exact index_lt hx1 hy1
      · exact index_lt hx hy1
      · exact index_lt hx2 hy1
  · intro w h x y hw hh hx hy i hi
    have hsx : SR.succWrap w x < w := by
      unfold SR.succWrap
      split_ifs <;> omega
    have hsy : SR.succWrap h y < h := by
      unfold SR.succWrap
      split_ifs <;> omega
    simp only [SR.idxList, SR.blockPos, List.mem_cons, List.not_mem_nil, or_false] at hi
    rcases hi with rfl | rfl | rfl | rfl
    · exact index_lt hx hy
    · exact index_lt hsx hy
    · exact index_lt hsx hsy
    · exact index_lt hx hsy

/-- Witness for the amended C2 at concrete lattices (2×2, and 1×1 for the
single-rotation block positions). -/
theorem neighbor_index_bound_amended_witness :
    ((1 : ℕ) ∈ Sand.tallNeibIndices 2 2 0 0 ∧ 1 < 2 * 2) ∧
    ((0 : ℕ) ∈ SR.idxList (SR.blockPos 1 1 0 0) ∧ 0 < 1 * 1) :=
  ⟨⟨by decide,
    (neighbor_index_bound_amended.1 2 2 0 0 (by decide) (by decide) (by decide)
      (by decide)).1 1 (by decide)⟩,
   ⟨by decide,
    neighbor_index_bound_amended.2 1 1 0 0 (by decide) (by decide) (by decide)
      (by decide) 0 (by decide)⟩⟩

/-! ## Single-rotation engine: block-level lemmas -/

lemma stepAt_false (c : ℕ → Bool) (p : ℕ × ℕ × ℕ × ℕ) :
    SR.stepAt false c p = SR.update_big_cell c (SR.blockCount c p) p := rfl

lemma stepAt_true (c : ℕ → Bool) (p : ℕ × ℕ × ℕ × ℕ) :
    SR.stepAt true c p = SR.update_big_cell_reverse c (SR.blockCount c p) p := rfl

lemma update_big_cell_apply (c : ℕ → Bool) (n : ℕ) (p : ℕ × ℕ × ℕ × ℕ) (j : ℕ) :
    SR.update_big_cell c n p j =
      if n = 1 then
        (if j = p.2.2.2 then c p.1
         else if j = p.2.2.1 then c p.2.2.2
         else if j = p.2.1 then c p.2.2.1
         else if j = p.1 then c p.2.1
         else c j)
      else c j := by
  unfold SR.update_big_cell
  by_cases hn : n = 1 <;> simp [hn, setc]

lemma update_big_cell_reverse_apply (c : ℕ → Bool) (n : ℕ) (p : ℕ × ℕ × ℕ × ℕ) (j : ℕ) :
    SR.update_big_cell_reverse c n p j =
      if n = 1 then
        (if j = p.2.2.2 then c p.2.2.1
         else if j = p.2.2.1 then c p.2.1
         else if j = p.2.1 then c p.1
         else if j = p.1 then c p.2.2.2
         else c j)
      else c j := by
  unfold SR.update_big_cell_reverse
  by_cases hn : n = 1 <;> simp [hn, setc]

lemma stepAt_notMem (rev : Bool) (c : ℕ → Bool) (p : ℕ × ℕ × ℕ × ℕ) (j : ℕ)
    (hj : j ∉ SR.idxList p) : SR.stepAt rev c p j = c j := by
  simp only [SR.idxList, List.mem_cons, List.not_mem_nil, or_false, not_or] at hj
  obtain ⟨h1, h2, h3, h4⟩ := hj
  cases rev
  · rw [stepAt_false, update_big_cell_apply]
    simp [h1, h2, h3, h4]
  · rw [stepAt_true, update_big_cell_reverse_apply]
    simp [h1, h2, h3, h4]

lemma stepAt_noRot (rev : Bool) (c : ℕ → Bool) (p : ℕ × ℕ × ℕ × ℕ)
    (hn : SR.blockCount c p ≠ 1) : SR.stepAt rev c p = c := by
  cases rev
  · rw [stepAt_false]
    unfold SR.update_big_cell
    rw [if_neg hn]
  · rw [stepAt_true]
    unfold SR.update_big_cell_reverse
    rw [if_neg hn]

lemma blockCount_congr {c c' : ℕ → Bool} (p : ℕ × ℕ × ℕ × ℕ)
    (h : ∀ i ∈ SR.idxList p, c i = c' i) : SR.blockCount c p = SR.blockCount c' p := by
  unfold SR.blockCount
  rw [h p.1 (by simp [SR.idxList]), h p.2.1 (by simp [SR.idxList]),
    h p.2.2.2 (by simp [SR.idxList]), h p.2.2.1 (by simp [SR.idxList])]

lemma stepAt_congr (rev : Bool) {c c' : ℕ → Bool} (p : ℕ × ℕ × ℕ × ℕ)
    (h : ∀ i ∈ SR.idxList p, c i = c' i) (j : ℕ) (hj : j ∈ SR.idxList p) :
    SR.stepAt rev c p j = SR.stepAt rev c' p j := by
  have hbc : SR.blockCount c p = SR.blockCount c' p := blockCount_congr p h
  have hv1 : c p.1 = c' p.1 := h _ (by simp [SR.idxList])
  have hv2 : c p.2.1 = c' p.2.1 := h _ (by simp [SR.idxList])
  have hv3 : c p.2.2.1 = c' p.2.2.1 := h _ (by simp [SR.idxList])
  have hv4 : c p.2.2.2 = c' p.2.2.2 := h _ (by simp [SR.idxList])
  simp only [SR.idxList, List.mem_cons, List.not_mem_nil, or_false] at hj
  cases rev
  · rw [stepAt_false, stepAt_false, update_big_cell_apply, update_big_cell_apply,
      hbc, hv1, hv2, hv3, hv4]
    rcases hj with rfl | rfl | rfl | rfl <;>
      split_ifs <;> first | rfl | exact hv1 | exact hv2 | exact hv3 | exact hv4
  · rw [stepAt_true, stepAt_true, update_big_cell_reverse_apply,
      update_big_cell_reverse_apply, hbc, hv1, hv2, hv3, hv4]
    rcases hj with rfl | rfl | rfl | rfl <;>
      split_ifs <;> first | rfl | exact hv1 | exact hv2 | exact hv3 | exact hv4

lemma stepAt_false_eval (c : ℕ → Bool) (p : ℕ × ℕ × ℕ × ℕ) (hd : SR.Distinct4 p)
    (hn : SR.blockCount c p = 1) :
    SR.stepAt false c p p.1 = c p.2.1 ∧ SR.stepAt false c p p.2.1 = c p.2.2.1 ∧
    SR.stepAt false c p p.2.2.1 = c p.2.2.2 ∧ SR.stepAt false c p p.2.2.2 = c p.1 := by
  obtain ⟨d1, d2, d3, d4, d5, d6⟩ := hd
  rw [stepAt_false]
  refine ⟨?_, ?_, ?_, ?_⟩ <;> rw [update_big_cell_apply, if_pos hn]
  · simp [d1, d2, d3]
  · simp [Ne.symm d1, d4, d5]
  · simp [Ne.symm d2, Ne.symm d4, d6]
  · simp

lemma stepAt_true_eval (c : ℕ → Bool) (p : ℕ × ℕ × ℕ × ℕ) (hd : SR.Distinct4 p)
    (hn : SR.blockCount c p = 1) :
    SR.stepAt true c p p.1 = c p.2.2.2 ∧ SR.stepAt true c p p.2.1 = c p.1 ∧
    SR.stepAt true c p p.2.2.1 = c p.2.1 ∧ SR.stepAt true c p p.2.2.2 = c p.2.2.1 := by
  obtain ⟨d1, d2, d3, d4, d5, d6⟩ := hd
  rw [stepAt_true]
  refine ⟨?_, ?_, ?_, ?_⟩ <;> rw [update_big_cell_reverse_apply, if_pos hn]
  · simp [d1, d2, d3]
  · simp [Ne.symm d1, d4, d5]
  · simp [Ne.symm d2, Ne.symm d4, d6]
  · simp

lemma blockCount_stepAt (rev : Bool) (c : ℕ → Bool) (p : ℕ × ℕ × ℕ × ℕ)
    (hd : SR.Distinct4 p) : SR.blockCount (SR.stepAt rev c p) p = SR.blockCount c p := by
  by_cases hn : SR.blockCount c p = 1
  · cases rev
    · obtain ⟨e1, e2, e3, e4⟩ := stepAt_false_eval c p hd hn
      unfold SR.blockCount
      rw [e1, e2, e3, e4]
      omega
    · obtain ⟨e1, e2, e3, e4⟩ := stepAt_true_eval c p hd hn
      unfold SR.blockCount
      rw [e1, e2, e3, e4]
      omega
  · rw [stepAt_noRot rev c p hn]

lemma stepAt_inv (r : Bool) (c : ℕ → Bool) (p : ℕ × ℕ × ℕ × ℕ)
    (hd : SR.Distinct4 p) : SR.stepAt (!r) (SR.stepAt r c p) p = c := by
  by_cases hn : SR.blockCount c p = 1
  · have hn' : SR.blockCount (SR.stepAt r c p) p = 1 :=
      (blockCount_stepAt r c p hd).trans hn
    funext j
    by_cases hj : j ∈ SR.idxList p
    · cases r
      · obtain ⟨f1, f2, f3, f4⟩ := stepAt_false_eval c p hd hn
        obtain ⟨g1, g2, g3, g4⟩ := stepAt_true_eval (SR.stepAt false c p) p hd hn'
        simp only [SR.idxList, List.mem_cons, List.not_mem_nil, or_false] at hj
        rcases hj with rfl | rfl | rfl | rfl
        · rw [show (!false) = true from rfl, g1, f4]
        · rw [show (!false) = true from rfl, g2, f1]
        · rw [show (!false) = true from rfl, g3, f2]
        · rw [show (!false) = true from rfl, g4, f3]
      · obtain ⟨f1, f2, f3, f4⟩ := stepAt_true_eval c p hd hn
        obtain ⟨g1, g2, g3, g4⟩ := stepAt_false_eval (SR.stepAt true c p) p hd hn'
        simp only [SR.idxList, List.mem_cons, List.not_mem_nil, or_false] at hj
        rcases hj with rfl | rfl | rfl | rfl
        · rw [show (!true) = false from rfl, g1, f2]
        · rw [show (!true) = false from rfl, g2, f3]
        · rw [show (!true) = false from rfl, g3, f4]
        · rw [show (!true) = false from rfl, g4, f1]
    · rw [stepAt_notMem _ _ _ _ hj, stepAt_notMem _ _ _ _ hj]
  · have hn' : SR.blockCount (SR.stepAt r c p) p ≠ 1 := by
      rw [blockCount_stepAt r c p hd]
      exact hn
    rw [stepAt_noRot _ _ _ hn', stepAt_noRot _ _ _ hn]

lemma stepAt_comm (r1 r2 : Bool) (c : ℕ → Bool) (p q : ℕ × ℕ × ℕ × ℕ)
    (hdisj : SR.PosDisj p q) :
    SR.stepAt r1 (SR.stepAt r2 c q) p = SR.stepAt r2 (SR.stepAt r1 c p) q := by
  have hdisj' : SR.PosDisj q p := fun i hi hip => hdisj i hip hi
  funext j
  by_cases hjp : j ∈ SR.idxList p
  · have hjq : j ∉ SR.idxList q := hdisj j hjp
    rw [stepAt_notMem r2 _ q j hjq]
    exact stepAt_congr r1 p (fun i hi => stepAt_notMem r2 c q i (hdisj i hi)) j hjp
  · by_cases hjq : j ∈ SR.idxList q
    · rw [stepAt_notMem r1 _ p j hjp]
      exact (stepAt_congr r2 q (fun i hi => stepAt_notMem r1 c p i (hdisj' i hi)) j hjq).symm
    · rw [stepAt_notMem r1 _ p j hjp, stepAt_notMem r2 c q j hjq,
        stepAt_notMem r2 _ q j hjq, stepAt_notMem r1 c p j hjp]

/-! ## Single-rotation engine: grid passes as disjoint block updates -/

lemma blockStep_eq (rev : Bool) (w h : ℕ) (c : ℕ → Bool) (x y : ℕ) :
    SR.blockStep rev w h c x y = SR.stepAt rev c (SR.blockPos w h x y) := by
  cases rev <;> rfl

lemma applyBlocks_cons (r : Bool) (c : ℕ → Bool) (p : ℕ × ℕ × ℕ × ℕ)
    (T : List (ℕ × ℕ × ℕ × ℕ)) :
    SR.applyBlocks r c (p :: T) = SR.applyBlocks r (SR.stepAt r c p) T := rfl

lemma stepAt_applyBlocks_comm (r1 r2 : Bool) (p : ℕ × ℕ × ℕ × ℕ)
    (P : List (ℕ × ℕ × ℕ × ℕ)) (h : ∀ q ∈ P, SR.PosDisj p q) :
    ∀ c, SR.stepAt r1 (SR.applyBlocks r2 c P) p = SR.applyBlocks r2 (SR.stepAt r1 c p) P := by
  induction P with
  | nil => intro c; rfl
  | cons q T ih =>
    intro c
    rw [applyBlocks_cons, applyBlocks_cons,
      ih (fun b hb => h b (List.mem_cons_of_mem q hb)),
      stepAt_comm r1 r2 c p q (h q (List.mem_cons_self q T))]

lemma applyBlocks_inv (r : Bool) (P : List (ℕ × ℕ × ℕ × ℕ))
    (hd : ∀ p ∈ P, SR.Distinct4 p) (hp : P.Pairwise SR.PosDisj) :
    ∀ c, SR.applyBlocks (!r) (SR.applyBlocks r c P) P = c := by
  induction P with
  | nil => intro c; rfl
  | cons p T ih =>
    obtain ⟨hpT, hT⟩ := List.pairwise_cons.mp hp
    intro c
    rw [applyBlocks_cons, applyBlocks_cons,
      stepAt_applyBlocks_comm (!r) r p T hpT,
      stepAt_inv r c p (hd p (List.mem_cons_self p T)),
      ih (fun q hq => hd q (List.mem_cons_of_mem p hq)) hT]

lemma idx_grid_anchor {w xt yt : ℕ} (hxt : xt < w / 2) :
    SR.idx_grid w (xt * 2 + yt * w * 2) = (2 * xt, 2 * yt) := by
  have hw0 : 0 < w := by omega
  have hlt : 2 * xt < w := by omega
  have h2 : xt * 2 + yt * w * 2 = 2 * xt + 2 * yt * w := by ring
  unfold SR.idx_grid
  rw [h2]
  have hmod : (2 * xt + 2 * yt * w) % w = 2 * xt := by
    rw [Nat.add_mul_mod_self_right, Nat.mod_eq_of_lt hlt]
  have hdiv : (2 * xt + 2 * yt * w) / w = 2 * yt := by
    rw [Nat.add_mul_div_right _ _ hw0, Nat.div_eq_of_lt hlt, Nat.zero_add]
  rw [hmod, hdiv]

lemma posList_mem {w h off : ℕ} {p : ℕ × ℕ × ℕ × ℕ} (hp : p ∈ SR.posList w h off) :
    ∃ xt yt, xt < w / 2 ∧ yt < h / 2 ∧
      p = SR.blockPos w h (2 * xt + off) (2 * yt + off) := by
  unfold SR.posList at hp
  simp only [List.mem_flatMap, List.mem_map, List.mem_range] at hp
  obtain ⟨yt, hyt, xt, hxt, rfl⟩ := hp
  refine ⟨xt, yt, hxt, hyt, ?_⟩
  show SR.blockPos w h ((SR.idx_grid w (xt * 2 + yt * w * 2)).1 + off)
    ((SR.idx_grid w (xt * 2 + yt * w * 2)).2 + off) = _
  rw [idx_grid_anchor hxt]

lemma succWrap_lt {w x : ℕ} (hw : 0 < w) (hx : x < w) : SR.succWrap w x < w := by
  unfold SR.succWrap
  split_ifs <;> omega

lemma anchor_ne_succWrap {w xt off : ℕ} (hxt : xt < w / 2) (hoff : off ≤ 1) :
    2 * xt + off ≠ SR.succWrap w (2 * xt + off) := by
  unfold SR.succWrap
  split_ifs <;> omega

lemma anchor_cols_disjoint {w xt xt' off : ℕ} (hxt : xt < w / 2) (hxt' : xt' < w / 2)
    (hoff : off ≤ 1) (hne : xt ≠ xt') :
    2 * xt + off ≠ 2 * xt' + off ∧
    2 * xt + off ≠ SR.succWrap w (2 * xt' + off) ∧
    SR.succWrap w (2 * xt + off) ≠ 2 * xt' + off ∧
    SR.succWrap w (2 * xt + off) ≠ SR.succWrap w (2 * xt' + off) := by
  unfold SR.succWrap
  split_ifs <;> exact ⟨by omega, by omega, by omega, by omega⟩

lemma distinct4_blockPos {w h x y : ℕ} (hx : x < w) (hy : y < h)
    (hsx : SR.succWrap w x < w) (hsy : SR.succWrap h y < h)
    (hcx : x ≠ SR.succWrap w x) (hcy : y ≠ SR.succWrap h y) :
    SR.Distinct4 (SR.blockPos w h x y) := by
  refine ⟨?_, ?_, ?_, ?_, ?_, ?_⟩ <;> intro heq
  · exact hcx (index_inj hx hsx heq).1
  · exact hcx (index_inj hx hsx heq).1
  · exact hcy (index_inj hx hx heq).2
  · exact hcy (index_inj hsx hsx heq).2
  · exact hcx ((index_inj hsx hx heq).1).symm
  · exact hcx ((index_inj hsx hx heq).1).symm

lemma posDisj_blockPos {w h x y x' y' : ℕ} (hx : x < w) (hsx : SR.succWrap w x < w)
    (hx' : x' < w) (hsx' : SR.succWrap w x' < w)
    (hcol : (x ≠ x' ∧ x ≠ SR.succWrap w x' ∧ SR.succWrap w x ≠ x' ∧
             SR.succWrap w x ≠ SR.succWrap w x') ∨
            (y ≠ y' ∧ y ≠ SR.succWrap h y' ∧ SR.succWrap h y ≠ y' ∧
             SR.succWrap h y ≠ SR.succWrap h y')) :
    SR.PosDisj (SR.blockPos w h x y) (SR.blockPos w h x' y') := by
  intro i hi hmem
  simp only [SR.idxList, SR.blockPos, List.mem_cons, List.not_mem_nil, or_false] at hi hmem
  rcases hcol with ⟨c1, c2, c3, c4⟩ | ⟨r1, r2, r3, r4⟩ <;>
    rcases hi with rfl | rfl | rfl | rfl <;>
    rcases hmem with heq | heq | heq | heq <;>
    · obtain ⟨e1, e2⟩ := index_inj (by assumption) (by assumption) heq
      omega

lemma posList_distinct (w h off : ℕ) (hoff : off ≤ 1) :
    ∀ p ∈ SR.posList w h off, SR.Distinct4 p := by
  intro p hp
  obtain ⟨xt, yt, hxt, hyt, rfl⟩ := posList_mem hp
  have hxw : 2 * xt + off < w := by omega
  have hyh : 2 * yt + off < h := by omega
  exact distinct4_blockPos hxw hyh (succWrap_lt (by omega) hxw) (succWrap_lt (by omega) hyh)
    (anchor_ne_succWrap hxt hoff) (anchor_ne_succWrap hyt hoff)

lemma pairwise_flatMap_map {γ : Type} (R : γ → γ → Prop) (G : ℕ → ℕ → γ) (m n : ℕ)
    (hR : ∀ xt yt xt' yt', xt < m → xt' < m → yt < n → yt' < n →
      xt ≠ xt' ∨ yt ≠ yt' → R (G xt yt) (G xt' yt')) :
    ((List.range n).flatMap (fun yt => (List.range m).map (fun xt => G xt yt))).Pairwise R := by
  induction n with
  | zero => simp
  | succ n ih =>
    rw [List.range_succ, List.flatMap_append, List.pairwise_append]
    refine ⟨ih (fun xt yt xt' yt' ha hb hc hd he =>
      hR xt yt xt' yt' ha hb (by omega) (by omega) he), ?_, ?_⟩
    · simp only [List.flatMap_cons, List.flatMap_nil, List.append_nil]
      rw [List.pairwise_map]
      refine List.Pairwise.imp_of_mem ?_ (List.pairwise_lt_range m)
      intro a b ha hb hab
      exact hR a n b n (List.mem_range.mp ha) (List.mem_range.mp hb) (by omega) (by omega)
        (Or.inl (by omega))
    · intro a ha b hb
      simp only [List.mem_flatMap, List.mem_map, List.mem_range] at ha
      simp only [List.flatMap_cons, List.flatMap_nil, List.append_nil, List.mem_map,
        List.mem_range] at hb
      obtain ⟨yt, hyt, xt, hxt, rfl⟩ := ha
      obtain ⟨xt', hxt', rfl⟩ := hb
      exact hR xt yt xt' n hxt hxt' (by omega) (by omega) (Or.inr (by omega))

lemma posList_pairwise (w h off : ℕ) (hoff : off ≤ 1) :
    (SR.posList w h off).Pairwise SR.PosDisj := by
  unfold SR.posList
  apply pairwise_flatMap_map
  intro xt yt xt' yt' hxt hxt' hyt hyt' hne
  have e1 := @idx_grid_anchor w xt yt hxt
  have e2 := @idx_grid_anchor w xt' yt' hxt'
  show SR.PosDisj
    (SR.blockPos w h ((SR.idx_grid w (xt * 2 + yt * w * 2)).1 + off)
      ((SR.idx_grid w (xt * 2 + yt * w * 2)).2 + off))
    (SR.blockPos w h ((SR.idx_grid w (xt' * 2 + yt' * w * 2)).1 + off)
      ((SR.idx_grid w (xt' * 2 + yt' * w * 2)).2 + off))
  rw [e1, e2]
  have hxw : 2 * xt + off < w := by omega
  have hxw' : 2 * xt' + off < w := by omega
  apply posDisj_blockPos hxw (succWrap_lt (by omega) hxw) hxw' (succWrap_lt (by omega) hxw')
  rcases hne with h | h
  · exact Or.inl (anchor_cols_disjoint hxt hxt' hoff h)
  · exact Or.inr (anchor_cols_disjoint hyt hyt' hoff h)

lemma grid_pass_gen (r : Bool) (w h off m : ℕ) :
    ∀ (n : ℕ) (c : ℕ → Bool),
    (List.range n).foldl (fun c yt => (List.range m).foldl (fun c xt =>
      SR.blockStep r w h c ((SR.idx_grid w (xt * 2 + yt * w * 2)).1 + off)
        ((SR.idx_grid w (xt * 2 + yt * w * 2)).2 + off)) c) c
    = ((List.range n).flatMap (fun yt => (List.range m).map (fun xt =>
        SR.blockPos w h ((SR.idx_grid w (xt * 2 + yt * w * 2)).1 + off)
          ((SR.idx_grid w (xt * 2 + yt * w * 2)).2 + off)))).foldl
        (fun c p => SR.stepAt r c p) c := by
  intro n
  induction n with
  | zero => intro c; rfl
  | succ n ih =>
    intro c
    rw [List.range_succ, List.foldl_append, List.flatMap_append, List.foldl_append, ih]
    simp only [List.flatMap_cons, List.flatMap_nil, List.append_nil, List.foldl_map,
      List.foldl_cons, List.foldl_nil, blockStep_eq]

lemma update_grid_1_eq (g : SR.MarGrid) :
    SR.update_grid_1 g =
      ⟨SR.applyBlocks g.reverse g.cells (SR.posList g.width g.height 0),
       g.width, g.height, g.reverse, g.phase⟩ := by
  obtain ⟨c, w, h, r, p⟩ := g
  have hgen := grid_pass_gen r w h 0 (w / 2) (h / 2) c
  exact SR.MarGrid.ext hgen rfl rfl rfl rfl

lemma update_grid_2_eq (g : SR.MarGrid) :
    SR.update_grid_2 g =
      ⟨SR.applyBlocks g.reverse g.cells (SR.posList g.width g.height 1),
       g.width, g.height, g.reverse, g.phase⟩ := by
  obtain ⟨c, w, h, r, p⟩ := g
  have hgen := grid_pass_gen r w h 1 (w / 2) (h / 2) c
  exact SR.MarGrid.ext hgen rfl rfl rfl rfl

lemma update_false (c : ℕ → Bool) (w h : ℕ) (r : Bool) :
    SR.update ⟨c, w, h, r, false⟩ =
      ⟨SR.applyBlocks r c (SR.posList w h 0), w, h, r, true⟩ := by
  show SR.update_grid_1 ⟨c, w, h, r, true⟩ = _
  rw [update_grid_1_eq]

lemma update_true (c : ℕ → Bool) (w h : ℕ) (r : Bool) :
    SR.update ⟨c, w, h, r, true⟩ =
      ⟨SR.applyBlocks r c (SR.posList w h 1), w, h, r, false⟩ := by
  show SR.update_grid_2 ⟨c, w, h, r, false⟩ = _
  rw [update_grid_2_eq]

lemma update_reverse_update (x : SR.MarGrid) :
    SR.update (SR.reverse' (SR.update x)) = SR.reverse' x := by
  obtain ⟨c, w, h, r, p⟩ := x
  cases p
  · rw [update_false]
    show SR.update ⟨SR.applyBlocks r c (SR.posList w h 0), w, h, !r, false⟩ = _
    rw [update_false,
      applyBlocks_inv r _ (posList_distinct w h 0 (by omega)) (posList_pairwise w h 0 (by omega)) c]
    rfl
  · rw [update_true]
    show SR.update ⟨SR.applyBlocks r c (SR.posList w h 1), w, h, !r, true⟩ = _
    rw [update_true,
      applyBlocks_inv r _ (posList_distinct w h 1 (by omega)) (posList_pairwise w h 1 (by omega)) c]
    rfl

lemma iterate_reverse_iterate (N : ℕ) :
    ∀ x : SR.MarGrid, SR.update^[N] (SR.reverse' (SR.update^[N] x)) = SR.reverse' x := by
  induction N with
  | zero => intro x; rfl
  | succ N ih =>
    intro x
    rw [Function.iterate_succ_apply' SR.update N x, Function.iterate_succ_apply SR.update N,
      update_reverse_update, ih]

/-- C3: for the single-rotation engine, calling `reverse()` twice restores the
reverse flag and the phase flag (indeed the whole state), and for every
initial lattice state and every N, running N `update()` steps, then
`reverse()`, then N more `update()` steps restores every cell exactly. -/
theorem single_rotation_reversibility :
    (∀ g : SR.MarGrid, SR.reverse' (SR.reverse' g) = g) ∧
    (∀ (g : SR.MarGrid) (N i : ℕ),
      (SR.update^[N] (SR.reverse' (SR.update^[N] g))).cells i = g.cells i) := by
  constructor
  · intro g
    obtain ⟨c, w, h, r, p⟩ := g
    simp [SR.reverse']
  · intro g N i
    rw [iterate_reverse_iterate N g]
    rfl

/-- C7 counterexample: with exactly the top-left member alive and `reverse`
unset, a clockwise rotation would move the live cell to the top-right slot,
but `update_big_cell` moves it to the bottom-left slot: the forward rotation
is counter-clockwise, not clockwise. -/
theorem single_rotation_direction_counterexample :
    ¬ (∀ (c : ℕ → Bool) (p : ℕ × ℕ × ℕ × ℕ), SR.Distinct4 p →
        (SR.stepAt false c p =
          if SR.blockCount c p = 1 then SR.rotCW c p else c) ∧
        (SR.stepAt true c p =
          if SR.blockCount c p = 1 then SR.rotCCW c p else c)) := by
  intro hcl
  have h := (hcl (fun i => decide (i = 0)) (0, 1, 2, 3) (by decide)).1
  have h3 := congrFun h 3
  revert h3
  decide

/-- C7 amended: in a single-rotation block update, a block with exactly one
live member is rotated 90 degrees — counter-clockwise when the reverse flag is
unset and clockwise when it is set, relative to the clockwise member order
top-left, top-right, bottom-right, bottom-left — and every other live count
leaves the block unchanged. -/
theorem single_rotation_block_rotation (c : ℕ → Bool) (p : ℕ × ℕ × ℕ × ℕ)
    (hd : SR.Distinct4 p) :
    (SR.stepAt false c p = if SR.blockCount c p = 1 then SR.rotCCW c p else c) ∧
    (SR.stepAt true c p = if SR.blockCount c p = 1 then SR.rotCW c p else c) := by
  by_cases hn : SR.blockCount c p = 1
  · obtain ⟨f1, f2, f3, f4⟩ := stepAt_false_eval c p hd hn
    obtain ⟨g1, g2, g3, g4⟩ := stepAt_true_eval c p hd hn
    obtain ⟨d1, d2, d3, d4, d5, d6⟩ := hd
    rw [if_pos hn, if_pos hn]
    constructor <;> funext j
    · by_cases hj : j ∈ SR.idxList p
      · simp only [SR.idxList, List.mem_cons, List.not_mem_nil, or_false] at hj
        rcases hj with rfl | rfl | rfl | rfl
        · rw [f1]
          unfold SR.rotCCW
          simp
        · rw [f2]
          unfold SR.rotCCW
          simp [Ne.symm d1]
        · rw [f3]
          unfold SR.rotCCW
          simp [Ne.symm d2, Ne.symm d4]
        · rw [f4]
          unfold SR.rotCCW
          simp [Ne.symm d3, Ne.symm d5, Ne.symm d6]
      · rw [stepAt_notMem _ _ _ _ hj]
        simp only [SR.idxList, List.mem_cons, List.not_mem_nil, or_false, not_or] at hj
        obtain ⟨h1, h2, h3, h4⟩ := hj
        unfold SR.rotCCW
        simp [h1, h2, h3, h4]
    · by_cases hj : j ∈ SR.idxList p
      · simp only [SR.idxList, List.mem_cons, List.not_mem_nil, or_false] at hj
        rcases hj with rfl | rfl | rfl | rfl
        · rw [g1]
          unfold SR.rotCW
          simp
        · rw [g2]
          unfold SR.rotCW
          simp [Ne.symm d1]
        · rw [g3]
          unfold SR.rotCW
          simp [Ne.symm d2, Ne.symm d4]
        · rw [g4]
          unfold SR.rotCW
          simp [Ne.symm d3, Ne.symm d5, Ne.symm d6]
      · rw [stepAt_notMem _ _ _ _ hj]
        simp only [SR.idxList, List.mem_cons, List.not_mem_nil, or_false, not_or] at hj
        obtain ⟨h1, h2, h3, h4⟩ := hj
        unfold SR.rotCW
        simp [h1, h2, h3, h4]
  · rw [if_neg hn, if_neg hn]
    exact ⟨stepAt_noRot false c p hn, stepAt_noRot true c p hn⟩

/-- Witness for the amended C7 at a concrete block with one live member. -/
theorem single_rotation_block_rotation_witness :
    (SR.stepAt false (fun i => decide (i = 0)) (0, 1, 2, 3) =
      if SR.blockCount (fun i => decide (i = 0)) (0, 1, 2, 3) = 1
      then SR.rotCCW (fun i => decide (i = 0)) (0, 1, 2, 3)
      else (fun i => decide (i = 0))) ∧
    (SR.stepAt true (fun i => decide (i = 0)) (0, 1, 2, 3) =
      if SR.blockCount (fun i => decide (i = 0)) (0, 1, 2, 3) = 1
      then SR.rotCW (fun i => decide (i = 0)) (0, 1, 2, 3)
      else (fun i => decide (i = 0))) :=
  single_rotation_block_rotation (fun i => decide (i = 0)) (0, 1, 2, 3) (by decide)

/-! ## Critters block rule -/

/-- C1: the completed Critters block update (`multicolor.rs`, lines 231–254)
follows the claim — count 2 unchanged, counts 0/1/4 invert all four cells,
count 3 rotates 180° then inverts — shown here on concrete blocks for each
count, while the block update actually written in `critters.rs` (lines
297–301) only implements the count==2 early return and leaves the block
unchanged for every count, so on the failing input (count 0, all-dead block)
it diverges from the claim (the cells stay dead instead of being inverted). -/
theorem critters_block_rule_evidence :
    (Crit.update_big_cell (fun _ => false) 0 (0, 1, 2, 3) 0 = true ∧
     Crit.update_big_cell (fun _ => false) 0 (0, 1, 2, 3) 1 = true ∧
     Crit.update_big_cell (fun _ => false) 0 (0, 1, 2, 3) 2 = true ∧
     Crit.update_big_cell (fun _ => false) 0 (0, 1, 2, 3) 3 = true) ∧
    (Crit.update_big_cell (fun i => decide (i = 0)) 1 (0, 1, 2, 3) 0 = false ∧
     Crit.update_big_cell (fun i => decide (i = 0)) 1 (0, 1, 2, 3) 1 = true ∧
     Crit.update_big_cell (fun i => decide (i = 0)) 1 (0, 1, 2, 3) 2 = true ∧
     Crit.update_big_cell (fun i => decide (i = 0)) 1 (0, 1, 2, 3) 3 = true) ∧
    (Crit.update_big_cell (fun i => decide (i < 2)) 2 (0, 1, 2, 3) 0 = true ∧
     Crit.update_big_cell (fun i => decide (i < 2)) 2 (0, 1, 2, 3) 2 = false) ∧
    (Crit.update_big_cell (fun i => decide (i < 3)) 3 (0, 1, 2, 3) 0 = false ∧
     Crit.update_big_cell (fun i => decide (i < 3)) 3 (0, 1, 2, 3) 1 = true ∧
     Crit.update_big_cell (fun i => decide (i < 3)) 3 (0, 1, 2, 3) 2 = false ∧
     Crit.update_big_cell (fun i => decide (i < 3)) 3 (0, 1, 2, 3) 3 = false) ∧
    (Crit.update_big_cell (fun _ => true) 4 (0, 1, 2, 3) 0 = false ∧
     Crit.update_big_cell (fun _ => true) 4 (0, 1, 2, 3) 3 = false) ∧
    (Crit.update_big_cell_stub (fun _ => false) 0 (0, 1, 2, 3) 0 = false ∧
     Crit.update_big_cell_stub (fun i => decide (i < 3)) 3 (0, 1, 2, 3) 0 = true) := by
  decide

/-! ## Rasterizer (`set_line`) -/

lemma setLineLoop_eq {α : Type} (w h : ℕ) (v : α) :
    ∀ (pts : List (ℤ × ℤ)) (c : ℕ → α),
      setLineLoop w h v c pts =
        ((pts.takeWhile (fun q => (grid_idx w h q.1 q.2).isSome)).filterMap
          (fun q => grid_idx w h q.1 q.2)).foldl (fun c i => setc c i v) c := by
  intro pts
  induction pts with
  | nil => intro c; rfl
  | cons q qs ih =>
    intro c
    cases hq : grid_idx w h q.1 q.2 with
    | some i =>
      simp only [setLineLoop, hq, List.takeWhile_cons, Option.isSome_some, if_true,
        List.filterMap_cons, List.foldl_cons]
      exact ih (setc c i v)
    | none =>
      simp only [setLineLoop, hq, List.takeWhile_cons, Option.isSome_none,
        List.filterMap_cons]
      rfl

/-- C9: `set_line` clamps the start point coordinatewise into
`[0, width] × [0, height]` — inclusive of `width`/`height` themselves, one
past the last valid index — then walks the Bresenham line toward the
unclamped end point, applies the edit to every generated in-bounds coordinate
and stops at the first generated coordinate outside the lattice (here
expressed as the edits over the `takeWhile`-in-bounds prefix of the generated
point sequence); stated for the boolean-cell variant and the sandpile
variant. -/
theorem set_line_semantics (g : SR.MarGrid) (gs : Sand.SandPiles)
    (x0 y0 x1 y1 : ℤ) (alive : Bool) :
    ((SR.set_line g x0 y0 x1 y1 alive).cells =
      (((bresenham (min (max x0 0) (g.width : ℤ)) (min (max y0 0) (g.height : ℤ))
          x1 y1).takeWhile
          (fun q => (grid_idx g.width g.height q.1 q.2).isSome)).filterMap
          (fun q => grid_idx g.width g.height q.1 q.2)).foldl
        (fun c i => setc c i alive) g.cells) ∧
    ((Sand.set_line gs x0 y0 x1 y1).piles =
      (((bresenham (min (max x0 0) (gs.width : ℤ)) (min (max y0 0) (gs.height : ℤ))
          x1 y1).takeWhile
          (fun q => (grid_idx gs.width gs.height q.1 q.2).isSome)).filterMap
          (fun q => grid_idx gs.width gs.height q.1 q.2)).foldl
        (fun c i => setc c i Sand.CLICK_HEIGHT) gs.piles) ∧
    (min (max x0 0) (g.width : ℤ) =
      if x0 < 0 then 0 else if x0 ≤ (g.width : ℤ) then x0 else (g.width : ℤ)) ∧
    (min (max y0 0) (g.height : ℤ) =
      if y0 < 0 then 0 else if y0 ≤ (g.height : ℤ) then y0 else (g.height : ℤ)) := by
  refine ⟨setLineLoop_eq _ _ _ _ _, setLineLoop_eq _ _ _ _ _, ?_, ?_⟩ <;>
    · split_ifs <;> omega

end PixelArt
